import Mathlib

/-!
# Blue Carbon MRV core — shallow embedding

Shallow embedding, in Lean 4, of the credit-ledger / consensus-verifier /
payment-distributor core of the Blue-Carbon-Credits repository, together with
proofs settling the frozen specification claims.

Sources embedded (Solidity ^0.8.19, so arithmetic overflow/underflow and
division by zero revert; a revert is modelled by `Option.none` and every
operation is all-or-nothing):

* `CarbonCreditToken.sol` (`CreditLedger` of the spec): ERC20 balances with
  batch tracking, `mintCreditBatch`, `retireCredits`, ERC20 `transfer`, and
  the publicly callable `ERC20Burnable.burn`.
* `PaymentDistributor` (`src/unnamed/part_002`): `configurePaymentSplit`,
  `recordSaleAndDistribute`, `_distributePayment`, `withdraw`.
* `VerificationOracle` (`src/unnamed/part_004`): `submitVerificationData`,
  `updateVerificationStatus`, `_checkProjectVerificationCompletion`,
  `_calculateFinalCarbonCredits`, `_issueCarbonCredits`.
* `ProjectRegistry.sol`: the minimal slice the oracle calls
  (`getProject`, `updateTotalCarbonCredits`).

Addresses and amounts are `Nat` (address 0 is the zero address). Solidity
mappings with `uint`/`address` keys and number values are association lists
`List (Nat × Nat)` whose lookup reads the first matching entry and defaults
to 0, exactly the zero-initialised mapping semantics; per-id struct stores
indexed by a counter are plain lists (`id i` lives at index `i - 1`).
Pure bookkeeping indexes that no claim reads (`ownerBatches`,
`projectBatches`, `submissionsByUser`, event logs) are not carried, and the
contract's ETH balance is not modelled (value transfers are reported as
returned amounts).
-/

/-- Lookup in an association list modelling a Solidity
`mapping(address => uint256)`: first matching key wins, absent keys read 0. -/
def getBal (l : List (Nat × Nat)) (a : Nat) : Nat :=
  match l with
  | [] => 0
  | (b, w) :: t => if a = b then w else getBal t a

/-- Write-through update of the association list: replaces the first entry
for `a`, appending a fresh entry when none exists. -/
def setBal (l : List (Nat × Nat)) (a v : Nat) : List (Nat × Nat) :=
  match l with
  | [] => [(a, v)]
  | (b, w) :: t => if a = b then (a, v) :: t else (b, w) :: setBal t a v

/-- Sum of all stored values — "sum over all identities" of a balance map. -/
def sumBal (l : List (Nat × Nat)) : Nat := (l.map (·.2)).sum

theorem sumBal_setBal (l : List (Nat × Nat)) (a v : Nat) :
    sumBal (setBal l a v) + getBal l a = sumBal l + v := by
  induction l with
  | nil => simp [setBal, getBal, sumBal]
  | cons hd t ih =>
    obtain ⟨b, w⟩ := hd
    by_cases hab : a = b
    · simp [setBal, getBal, sumBal, hab]
      omega
    · simp only [setBal, getBal, sumBal, if_neg hab, List.map_cons, List.sum_cons]
      simp only [sumBal] at ih
      omega

theorem getBal_le_sumBal (l : List (Nat × Nat)) (a : Nat) :
    getBal l a ≤ sumBal l := by
  induction l with
  | nil => simp [getBal, sumBal]
  | cons hd t ih =>
    obtain ⟨b, w⟩ := hd
    by_cases hab : a = b
    · simp [getBal, sumBal, hab]
    · simp only [getBal, sumBal, if_neg hab, List.map_cons, List.sum_cons]
      simp only [sumBal] at ih
      omega

theorem getBal_setBal_self (l : List (Nat × Nat)) (a v : Nat) :
    getBal (setBal l a v) a = v := by
  induction l with
  | nil => simp [setBal, getBal]
  | cons hd t ih =>
    obtain ⟨b, w⟩ := hd
    by_cases hab : a = b
    · simp [setBal, getBal, hab]
    · simp [setBal, getBal, hab, ih]

/-! ## CarbonCreditToken (CreditLedger) -/

/-- `CarbonCreditToken.CreditBatch`. -/
structure CreditBatch where
  projectId : Nat
  amount : Nat
  vintage : Nat
  verificationStandard : String
  ipfsMetadata : String
  isRetired : Bool
  createdAt : Nat
  originalOwner : Nat
  deriving DecidableEq, Repr

/-- `CarbonCreditToken.RetirementInfo`. -/
structure RetirementInfo where
  batchId : Nat
  amount : Nat
  reason : String
  retiredBy : Nat
  timestamp : Nat
  deriving DecidableEq, Repr

/-- State of `CarbonCreditToken`: ERC20 balances (token units, i.e. credit
units scaled by `10^decimals`), the batch store and per-batch retirement
records (`batchId i` at index `i - 1`), the per-address and global retirement
counters, and the `Ownable` owner. -/
structure TokenState where
  owner : Nat
  batchCounter : Nat
  balances : List (Nat × Nat)
  batches : List CreditBatch
  batchRetirements : List (List RetirementInfo)
  totalRetiredCredits : List (Nat × Nat)
  totalIssuedCredits : Nat
  totalRetiredCreditsGlobal : Nat
  deriving DecidableEq, Repr

/-- `10 ** decimals()` — the token keeps 18 decimals (ERC20 default), so one
credit unit is `10^18` token units. -/
def tokenUnit : Nat := 10 ^ 18

/-- Fresh `CarbonCreditToken` deployed by `deployer`. -/
def TokenState.init (deployer : Nat) : TokenState :=
  ⟨deployer, 0, [], [], [], [], 0, 0⟩

/-- Sum of the `amount` fields of a batch's retirement records —
`getTotalRetiredFromBatch` without the `validBatchId` guard. -/
def retiredAmount (rets : List RetirementInfo) : Nat :=
  (rets.map (·.amount)).sum

/-- `getTotalRetiredFromBatch`, guard included. -/
def getTotalRetiredFromBatch (s : TokenState) (batchId : Nat) : Option Nat :=
  if 1 ≤ batchId ∧ batchId ≤ s.batchCounter then
    some (retiredAmount ((s.batchRetirements.get? (batchId - 1)).getD []))
  else none

/-- `mintCreditBatch` (`onlyOwner`): validates the arguments, appends the
batch, credits `to` with `amount * 10^18` token units and bumps
`totalIssuedCredits` by `amount`; returns the fresh batch id. -/
def mintCreditBatch (s : TokenState) (caller projectId amount vintage : Nat)
    (verificationStandard ipfsMetadata : String) (recipient time : Nat) :
    Option (TokenState × Nat) :=
  if caller ≠ s.owner then none
  else if projectId = 0 then none
  else if amount = 0 then none
  else if vintage = 0 then none
  else if recipient = 0 then none
  else if verificationStandard.length = 0 then none
  else
    let newBatchId := s.batchCounter + 1
    some ({ s with
        batchCounter := newBatchId
        batches := s.batches ++
          [⟨projectId, amount, vintage, verificationStandard, ipfsMetadata,
            false, time, recipient⟩]
        batchRetirements := s.batchRetirements ++ [[]]
        balances := setBal s.balances recipient
          (getBal s.balances recipient + amount * tokenUnit)
        totalIssuedCredits := s.totalIssuedCredits + amount }, newBatchId)

/-- `retireCredits`: any holder may retire `amount` credit units against an
existing, not-yet-fully-retired batch provided their own ERC20 balance covers
`amount * 10^18`; the tokens are burnt, a `RetirementInfo` is appended and the
batch is flagged retired as soon as its cumulative retirements reach its
amount (the source compares with `>=`). -/
def retireCredits (s : TokenState) (caller batchId amount : Nat)
    (reason : String) (time : Nat) : Option TokenState :=
  if ¬(1 ≤ batchId ∧ batchId ≤ s.batchCounter) then none
  else if amount = 0 then none
  else if reason.length = 0 then none
  else
    match s.batches.get? (batchId - 1) with
    | none => none
    | some batch =>
      if batch.isRetired then none
      else
        let tokenAmount := amount * tokenUnit
        if getBal s.balances caller < tokenAmount then none
        else
          let rets := (s.batchRetirements.get? (batchId - 1)).getD []
          let rets' := rets ++ [⟨batchId, amount, reason, caller, time⟩]
          let batch' := if batch.amount ≤ retiredAmount rets' then
              { batch with isRetired := true } else batch
          some { s with
            balances := setBal s.balances caller (getBal s.balances caller - tokenAmount)
            batches := s.batches.set (batchId - 1) batch'
            batchRetirements := s.batchRetirements.set (batchId - 1) rets'
            totalRetiredCredits := setBal s.totalRetiredCredits caller
              (getBal s.totalRetiredCredits caller + amount)
            totalRetiredCreditsGlobal := s.totalRetiredCreditsGlobal + amount }

/-- ERC20 `transfer` (also the balance effect of `transferFrom`): nonzero
endpoints, sufficient sender balance, sender debited then receiver credited
in token units. -/
def transfer (s : TokenState) (fromA toA amount : Nat) : Option TokenState :=
  if fromA = 0 then none
  else if toA = 0 then none
  else if getBal s.balances fromA < amount then none
  else
    let b1 := setBal s.balances fromA (getBal s.balances fromA - amount)
    some { s with balances := setBal b1 toA (getBal b1 toA + amount) }

/-- `ERC20Burnable.burn` (also the balance effect of `burnFrom`), public on
`CarbonCreditToken`: destroys an arbitrary token amount from the caller's
balance without touching any retirement counter. -/
def burn (s : TokenState) (caller amount : Nat) : Option TokenState :=
  if caller = 0 then none
  else if getBal s.balances caller < amount then none
  else
    some { s with
      balances := setBal s.balances caller (getBal s.balances caller - amount) }

/-- One call to the token's public, balance-affecting interface. -/
inductive TokenOp where
  | mint (caller projectId amount vintage : Nat)
      (verificationStandard ipfsMetadata : String) (recipient time : Nat)
  | retire (caller batchId amount : Nat) (reason : String) (time : Nat)
  | xfer (fromA toA amount : Nat)
  | burnOp (caller amount : Nat)
  deriving DecidableEq, Repr

/-- Apply one public call; `none` is a revert (no state change). -/
def applyOp (s : TokenState) : TokenOp → Option TokenState
  | .mint c p a v std md r t => (mintCreditBatch s c p a v std md r t).map (·.1)
  | .retire c b a r t => retireCredits s c b a r t
  | .xfer f r a => transfer s f r a
  | .burnOp c a => burn s c a

/-- Whether an operation is one the spec's credit-ledger interface lists:
issue (`mintCreditBatch`), transfer, retire — i.e. everything except the
inherited `ERC20Burnable.burn`. -/
def TokenOp.isLedgerOp : TokenOp → Bool
  | .burnOp _ _ => false
  | _ => true

/-- States reachable from a fresh deployment through the full public
interface, `burn` included. -/
inductive Reachable (deployer : Nat) : TokenState → Prop where
  | init : Reachable deployer (TokenState.init deployer)
  | step {s s' : TokenState} (op : TokenOp) :
      Reachable deployer s → applyOp s op = some s' → Reachable deployer s'

/-- States reachable using only the spec's issue/transfer/retire operations. -/
inductive ReachableLedger (deployer : Nat) : TokenState → Prop where
  | init : ReachableLedger deployer (TokenState.init deployer)
  | step {s s' : TokenState} (op : TokenOp) :
      ReachableLedger deployer s → op.isLedgerOp = true →
      applyOp s op = some s' → ReachableLedger deployer s'

/-- Credit conservation, stated in token units: the sum of all ERC20 balances
plus the retired total (scaled to token units) equals the issued total
(scaled to token units). On states whose balances are whole credit units this
is exactly `Σ balances + Σ retired = Σ issued` in credit units. -/
def conserved (s : TokenState) : Prop :=
  sumBal s.balances + s.totalRetiredCreditsGlobal * tokenUnit =
    s.totalIssuedCredits * tokenUnit

instance (s : TokenState) : Decidable (conserved s) := by
  unfold conserved; infer_instance

/-- Batch bookkeeping invariant of the token: the batch and retirement
stores track the counter, every minted batch has a positive amount, and a
batch's `isRetired` flag is set exactly when the cumulative retirements
recorded against it have reached its minted amount. -/
def batchesWellFormed (s : TokenState) : Prop :=
  s.batches.length = s.batchCounter ∧
  s.batchRetirements.length = s.batchCounter ∧
  ∀ i b rs, s.batches.get? i = some b → s.batchRetirements.get? i = some rs →
    1 ≤ b.amount ∧ (b.isRetired = true ↔ b.amount ≤ retiredAmount rs)

theorem batchesWellFormed_init (deployer : Nat) :
    batchesWellFormed (TokenState.init deployer) := by
  refine ⟨rfl, rfl, ?_⟩
  intro i b rs hb
  simp [TokenState.init] at hb

theorem batchesWellFormed_step {s s' : TokenState} (op : TokenOp)
    (hwf : batchesWellFormed s) (hstep : applyOp s op = some s') :
    batchesWellFormed s' := by
  obtain ⟨hlen1, hlen2, hiff⟩ := hwf
  cases op with
  | mint c p a v std md r t =>
    rw [applyOp, mintCreditBatch] at hstep
    split at hstep
    · simp at hstep
    split at hstep
    · simp at hstep
    split at hstep
    · simp at hstep
    split at hstep
    · simp at hstep
    split at hstep
    · simp at hstep
    split at hstep
    · simp at hstep
    rename_i _ ha _ _ _
    rw [Option.map_some'] at hstep
    obtain rfl := Option.some.inj hstep
    refine ⟨by simpa using hlen1, by simpa using hlen2, ?_⟩
    intro i b rs hb hrs
    simp only at hb hrs
    rcases Nat.lt_or_ge i s.batches.length with hi | hi
    · rw [List.get?_append hi] at hb
      rw [List.get?_append (show i < s.batchRetirements.length by omega)] at hrs
      exact hiff i b rs hb hrs
    · rcases Nat.lt_or_ge i (s.batches.length + 1) with hi2 | hi2
      · have hieq : i = s.batches.length := by omega
        rw [hieq, List.get?_append_right (Nat.le_refl _), Nat.sub_self] at hb
        rw [hieq, List.get?_append_right
            (show s.batchRetirements.length ≤ s.batches.length by omega),
          (show s.batches.length - s.batchRetirements.length = 0 by omega)] at hrs
        simp only [List.get?] at hb hrs
        obtain rfl := Option.some.inj hb
        obtain rfl := Option.some.inj hrs
        constructor
        · simpa using Nat.one_le_iff_ne_zero.mpr ha
        · simp [retiredAmount]
          omega
      · rw [List.get?_eq_none.mpr (by simpa using hi2)] at hb
        exact absurd hb (by simp)
  | retire c bid a r t =>
    rw [applyOp, retireCredits] at hstep
    split at hstep
    · simp at hstep
    split at hstep
    · simp at hstep
    split at hstep
    · simp at hstep
    rename_i hbid _ _
    split at hstep
    · simp at hstep
    rename_i batch hbatch
    split at hstep
    · simp at hstep
    rename_i hnotret
    dsimp only at hstep
    split at hstep
    · simp at hstep
    obtain rfl := Option.some.inj hstep
    rw [not_not] at hbid
    have hrets : s.batchRetirements.get? (bid - 1) =
        some (s.batchRetirements.get ⟨bid - 1, by rw [hlen2]; omega⟩) :=
      List.get?_eq_get _
    have hold := hiff (bid - 1) batch _ hbatch hrets
    refine ⟨by simpa using hlen1, by simpa using hlen2, ?_⟩
    intro i b rs hb hrs
    simp only at hb hrs
    by_cases hieq : bid - 1 = i
    · subst hieq
      rw [List.get?_set_eq_of_lt _ (by rw [hlen1]; omega)] at hb
      rw [List.get?_set_eq_of_lt _ (by rw [hlen2]; omega)] at hrs
      obtain rfl := Option.some.inj hb
      obtain rfl := Option.some.inj hrs
      split
      · rename_i hle
        exact ⟨hold.1, by simpa using hle⟩
      · rename_i hnle
        refine ⟨hold.1, ?_⟩
        constructor
        · intro hret
          exact absurd hret hnotret
        · intro hle
          exact absurd hle hnle
    · rw [List.get?_set_ne _ _ hieq] at hb
      rw [List.get?_set_ne _ _ hieq] at hrs
      exact hiff i b rs hb hrs
  | xfer f r a =>
    rw [applyOp, transfer] at hstep
    split at hstep
    · simp at hstep
    split at hstep
    · simp at hstep
    split at hstep
    · simp at hstep
    obtain rfl := Option.some.inj hstep
    exact ⟨hlen1, hlen2, hiff⟩
  | burnOp c a =>
    rw [applyOp, burn] at hstep
    split at hstep
    · simp at hstep
    split at hstep
    · simp at hstep
    obtain rfl := Option.some.inj hstep
    exact ⟨hlen1, hlen2, hiff⟩

theorem batchesWellFormed_reachable {deployer : Nat} {s : TokenState}
    (h : Reachable deployer s) : batchesWellFormed s := by
  induction h with
  | init => exact batchesWellFormed_init deployer
  | step op _ hstep ih => exact batchesWellFormed_step op ih hstep

theorem conserved_init (deployer : Nat) : conserved (TokenState.init deployer) := by
  simp [conserved, TokenState.init, sumBal]

theorem conserved_step {s s' : TokenState} (op : TokenOp)
    (hledger : op.isLedgerOp = true) (hc : conserved s)
    (hstep : applyOp s op = some s') : conserved s' := by
  cases op with
  | mint c p a v std md r t =>
    rw [applyOp, mintCreditBatch] at hstep
    split at hstep
    · simp at hstep
    split at hstep
    · simp at hstep
    split at hstep
    · simp at hstep
    split at hstep
    · simp at hstep
    split at hstep
    · simp at hstep
    split at hstep
    · simp at hstep
    rw [Option.map_some'] at hstep
    obtain rfl := Option.some.inj hstep
    have hsum := sumBal_setBal s.balances r (getBal s.balances r + a * tokenUnit)
    rw [conserved] at hc ⊢
    simp only
    rw [Nat.add_mul]
    omega
  | retire c bid a r t =>
    rw [applyOp, retireCredits] at hstep
    split at hstep
    · simp at hstep
    split at hstep
    · simp at hstep
    split at hstep
    · simp at hstep
    split at hstep
    · simp at hstep
    split at hstep
    · simp at hstep
    dsimp only at hstep
    split at hstep
    · simp at hstep
    rename_i hbal
    rw [Nat.not_lt] at hbal
    obtain rfl := Option.some.inj hstep
    have hsum := sumBal_setBal s.balances c (getBal s.balances c - a * tokenUnit)
    rw [conserved] at hc ⊢
    simp only
    rw [Nat.add_mul]
    omega
  | xfer f r a =>
    rw [applyOp, transfer] at hstep
    split at hstep
    · simp at hstep
    split at hstep
    · simp at hstep
    split at hstep
    · simp at hstep
    rename_i hbal
    rw [Nat.not_lt] at hbal
    obtain rfl := Option.some.inj hstep
    have h1 := sumBal_setBal s.balances f (getBal s.balances f - a)
    have h2 := sumBal_setBal (setBal s.balances f (getBal s.balances f - a)) r
      (getBal (setBal s.balances f (getBal s.balances f - a)) r + a)
    have h3 := getBal_le_sumBal (setBal s.balances f (getBal s.balances f - a)) r
    rw [conserved] at hc ⊢
    simp only
    omega
  | burnOp c a => simp [TokenOp.isLedgerOp] at hledger

theorem conserved_reachableLedger {deployer : Nat} {s : TokenState}
    (h : ReachableLedger deployer s) : conserved s := by
  induction h with
  | init => exact conserved_init deployer
  | step op _ hl hstep ih => exact conserved_step op hl ih hstep

/-! ## Concrete token scenarios -/

/-- State after `mintCreditBatch(1, 1, 2024, "VCS", "", 2)`: one batch of one
credit issued to address 2. -/
def tokenMint1 : TokenState :=
  { owner := 1, batchCounter := 1, balances := [(2, tokenUnit)]
    batches := [⟨1, 1, 2024, "VCS", "", false, 100, 2⟩]
    batchRetirements := [[]], totalRetiredCredits := []
    totalIssuedCredits := 1, totalRetiredCreditsGlobal := 0 }

/-- `tokenMint1` after address 2 calls the public `ERC20Burnable.burn(1)`,
destroying a single token-wei with no retirement record. -/
def tokenBurn1 : TokenState :=
  { tokenMint1 with balances := [(2, tokenUnit - 1)] }

/-- `tokenMint1` after a second one-credit batch is minted to address 2. -/
def tokenMint2 : TokenState :=
  { owner := 1, batchCounter := 2, balances := [(2, 2 * tokenUnit)]
    batches := [⟨1, 1, 2024, "VCS", "", false, 100, 2⟩,
                ⟨1, 1, 2024, "VCS", "", false, 100, 2⟩]
    batchRetirements := [[], []], totalRetiredCredits := []
    totalIssuedCredits := 2, totalRetiredCreditsGlobal := 0 }

/-- `tokenMint2` after `retireCredits(1, 2, "offset")` by address 2: two
credits are retired against batch 1, whose minted amount is only one. -/
def tokenOverRetired : TokenState :=
  { owner := 1, batchCounter := 2, balances := [(2, 0)]
    batches := [⟨1, 1, 2024, "VCS", "", true, 100, 2⟩,
                ⟨1, 1, 2024, "VCS", "", false, 100, 2⟩]
    batchRetirements := [[⟨1, 2, "offset", 2, 101⟩], []]
    totalRetiredCredits := [(2, 2)]
    totalIssuedCredits := 2, totalRetiredCreditsGlobal := 2 }

theorem tokenMint1_reachable : Reachable 1 tokenMint1 :=
  Reachable.step (.mint 1 1 1 2024 "VCS" "" 2 100) Reachable.init rfl

theorem tokenBurn1_reachable : Reachable 1 tokenBurn1 :=
  Reachable.step (.burnOp 2 1) tokenMint1_reachable rfl

theorem tokenOverRetired_reachable : Reachable 1 tokenOverRetired :=
  Reachable.step (.retire 2 1 2 "offset" 101)
    (Reachable.step (.mint 1 1 1 2024 "VCS" "" 2 100)
      (Reachable.step (.mint 1 1 1 2024 "VCS" "" 2 100) Reachable.init rfl) rfl) rfl

/-! ## Claim C1 -/

/-- C1, as stated, is false on the code: the credit ledger's public interface
includes the inherited `ERC20Burnable.burn`, and after
`mintCreditBatch` of one credit followed by `burn(1)` — a reachable state of
the full public interface — the sum of all balances plus the retired total no
longer equals the issued total. -/
theorem burn_breaks_conservation :
    Reachable 1 tokenBurn1 ∧ ¬ conserved tokenBurn1 :=
  ⟨tokenBurn1_reachable, by decide⟩

/-- C1 (amended): after every sequence of the credit ledger's issue
(`mintCreditBatch`), `transfer` and retire (`retireCredits`) operations — the
operations §4.2 of the spec lists — the sum of all identity balances plus the
retired total equals the issued total (all in token units, so also in credit
units); the inherited `ERC20Burnable.burn`, which destroys balance without
recording a retirement, is excluded. -/
theorem conservation_of_ledger_ops {deployer : Nat} {s : TokenState}
    (h : ReachableLedger deployer s) : conserved s :=
  conserved_reachableLedger h

/-- Witness for `conservation_of_ledger_ops` at a concrete reachable state. -/
theorem conservation_of_ledger_ops_witness : conserved tokenMint1 :=
  conservation_of_ledger_ops
    (ReachableLedger.step (.mint 1 1 1 2024 "VCS" "" 2 100)
      (@ReachableLedger.init 1) rfl (by rfl))

/-! ## Claim C2 -/

/-- C2, as stated, is false on the code: `retireCredits` checks only the
caller's total ERC20 balance, never `batch.quantity − already-retired`, so a
holder of credits from two one-credit batches can retire two credits against
the first batch alone. In the reachable state `tokenOverRetired` the
cumulative retirement recorded against batch 1 is 2 while its minted amount
is 1, and the batch was flagged retired at 2 ≠ 1. -/
theorem retirement_exceeds_batch_quantity :
    Reachable 1 tokenOverRetired ∧
    getTotalRetiredFromBatch tokenOverRetired 1 = some 2 ∧
    (tokenOverRetired.batches.get? 0).map (·.amount) = some 1 :=
  ⟨tokenOverRetired_reachable, by decide, by decide⟩

/-- C2 (amended): a retire against a batch fails only when the batch is
unknown or already flagged retired, the quantity is zero, the reason empty,
or the quantity exceeds the caller's total balance — cumulative retirements
against a batch may therefore exceed its minted quantity — and in every
reachable state a batch is flagged fully retired exactly when the cumulative
retirements recorded against it have reached (not exactly equal) its minted
quantity. -/
theorem retired_flag_iff_cumulative {deployer : Nat} {s : TokenState}
    (h : Reachable deployer s) {i : Nat} {b : CreditBatch}
    {rs : List RetirementInfo} (hb : s.batches.get? i = some b)
    (hrs : s.batchRetirements.get? i = some rs) :
    b.isRetired = true ↔ b.amount ≤ retiredAmount rs :=
  ((batchesWellFormed_reachable h).2.2 i b rs hb hrs).2

/-- Witness for `retired_flag_iff_cumulative`: batch 1 of the over-retired
scenario is flagged retired and its cumulative retirements exceed its amount. -/
theorem retired_flag_iff_cumulative_witness :
    (⟨1, 1, 2024, "VCS", "", true, 100, 2⟩ : CreditBatch).isRetired = true ↔
      (⟨1, 1, 2024, "VCS", "", true, 100, 2⟩ : CreditBatch).amount ≤
        retiredAmount [⟨1, 2, "offset", 2, 101⟩] :=
  @retired_flag_iff_cumulative 1 tokenOverRetired tokenOverRetired_reachable 0
    ⟨1, 1, 2024, "VCS", "", true, 100, 2⟩ [⟨1, 2, "offset", 2, 101⟩]
    (by decide) (by decide)

/-! ## PaymentDistributor -/

/-- Association lookup for a Solidity `mapping(uint256 => T)` with struct
values: first matching key, `none` when the key was never written. -/
def assocFind? {α : Type} (l : List (Nat × α)) (k : Nat) : Option α :=
  match l with
  | [] => none
  | (k', v) :: t => if k = k' then some v else assocFind? t k

/-- Association update: overwrite the first entry for `k`, else append. -/
def assocSet {α : Type} (l : List (Nat × α)) (k : Nat) (v : α) : List (Nat × α) :=
  match l with
  | [] => [(k, v)]
  | (k', w) :: t => if k = k' then (k, v) :: t else (k', w) :: assocSet t k v

theorem assocFind?_assocSet_self {α : Type} (l : List (Nat × α)) (k : Nat) (v : α) :
    assocFind? (assocSet l k v) k = some v := by
  induction l with
  | nil => simp [assocSet, assocFind?]
  | cons hd t ih =>
    obtain ⟨k', w⟩ := hd
    by_cases hk : k = k'
    · simp [assocSet, assocFind?, hk]
    · simp [assocSet, assocFind?, hk, ih]

theorem assocSet_assocSet {α : Type} (l : List (Nat × α)) (k : Nat) (v w : α) :
    assocSet (assocSet l k v) k w = assocSet l k w := by
  induction l with
  | nil => simp [assocSet]
  | cons hd t ih =>
    obtain ⟨k', x⟩ := hd
    by_cases hk : k = k'
    · simp [assocSet, hk]
    · simp [assocSet, hk, ih]

/-- `PaymentDistributor.PaymentSplit`. -/
structure PaymentSplit where
  communityWallets : List Nat
  communityPercentages : List Nat
  ngoWallets : List Nat
  ngoPercentages : List Nat
  verifierWallets : List Nat
  verifierPercentages : List Nat
  platformWallet : Nat
  platformPercentage : Nat
  deriving DecidableEq, Repr

/-- The zero-initialised `PaymentSplit` a never-configured mapping slot reads. -/
def PaymentSplit.empty : PaymentSplit := ⟨[], [], [], [], [], [], 0, 0⟩

/-- Sum of every stored percentage of a split, platform share included. -/
def PaymentSplit.totalPercentage (sp : PaymentSplit) : Nat :=
  sp.platformPercentage + sp.communityPercentages.sum + sp.ngoPercentages.sum +
    sp.verifierPercentages.sum

/-- `PaymentDistributor.Sale`. -/
structure Sale where
  projectId : Nat
  batchId : Nat
  amount : Nat
  price : Nat
  buyer : Nat
  seller : Nat
  timestamp : Nat
  isDistributed : Bool
  deriving DecidableEq, Repr

/-- State of `PaymentDistributor`: the `Ownable` owner, treasury and default
platform fee, the sale counter, and the three mappings (`projectPaymentSplits`,
`sales` keyed by sale id, `pendingWithdrawals`). -/
structure DistState where
  owner : Nat
  platformTreasury : Nat
  defaultPlatformFee : Nat
  saleCounter : Nat
  splits : List (Nat × PaymentSplit)
  sales : List (Nat × Sale)
  pendingWithdrawals : List (Nat × Nat)
  deriving DecidableEq, Repr

/-- Fresh `PaymentDistributor` (constructor): `defaultPlatformFee = 250`. -/
def DistState.init (deployer treasury : Nat) : DistState :=
  ⟨deployer, treasury, 250, 0, [], [], []⟩

/-- `projectPaymentSplits[_projectId]` — mapping read with zero default. -/
def getSplit (s : DistState) (projectId : Nat) : PaymentSplit :=
  (assocFind? s.splits projectId).getD PaymentSplit.empty

/-- `configurePaymentSplit` (`onlyOwner`, `validProjectId`): checks the three
wallet/percentage array length pairs, rejects when the submitted percentages
(platform share included) sum above 10,000 bp, then stores the configuration
wholesale — except that a zero `_platformWallet` is replaced by the treasury
and a zero `_platformPercentage` by `defaultPlatformFee`. -/
def configurePaymentSplit (s : DistState) (caller projectId : Nat)
    (cw cp nw np vw vp : List Nat) (pw pp : Nat) : Option DistState :=
  if caller ≠ s.owner then none
  else if projectId = 0 then none
  else if cw.length ≠ cp.length then none
  else if nw.length ≠ np.length then none
  else if vw.length ≠ vp.length then none
  else if 10000 < pp + cp.sum + np.sum + vp.sum then none
  else
    let newSplit : PaymentSplit :=
      ⟨cw, cp, nw, np, vw, vp,
        (if pw ≠ 0 then pw else s.platformTreasury),
        (if 0 < pp then pp else s.defaultPlatformFee)⟩
    some { s with splits := assocSet s.splits projectId newSplit }

/-- One distribution loop of `_distributePayment`: walk the wallet array,
credit `totalAmount * pct / 10000` (floor) to each wallet when positive. The
loop indexes the percentage array by the wallet index, so a percentage array
shorter than the wallet array is an out-of-bounds read — a revert, `none`
(never the case for configurations stored by `configurePaymentSplit`). -/
def creditShares (pend : List (Nat × Nat)) (wallets percentages : List Nat)
    (totalAmount : Nat) : Option (List (Nat × Nat)) :=
  match wallets, percentages with
  | [], _ => some pend
  | _ :: _, [] => none
  | w :: ws, p :: ps =>
      let amt := totalAmount * p / 10000
      creditShares (if 0 < amt then setBal pend w (getBal pend w + amt) else pend)
        ws ps totalAmount

/-- `_distributePayment`: credits community, NGO and verifier shares, then
the platform share, and flips the sale's `isDistributed` flag. -/
def distributePayment (s : DistState) (saleId projectId totalAmount : Nat) :
    Option DistState :=
  let split := getSplit s projectId
  (creditShares s.pendingWithdrawals split.communityWallets
      split.communityPercentages totalAmount).bind fun p1 =>
  (creditShares p1 split.ngoWallets split.ngoPercentages totalAmount).bind fun p2 =>
  (creditShares p2 split.verifierWallets split.verifierPercentages
      totalAmount).bind fun p3 =>
  let platformAmount := totalAmount * split.platformPercentage / 10000
  let p4 := if 0 < platformAmount then
      setBal p3 split.platformWallet (getBal p3 split.platformWallet + platformAmount)
    else p3
  let sale := (assocFind? s.sales saleId).getD ⟨0, 0, 0, 0, 0, 0, 0, false⟩
  some { s with
    pendingWithdrawals := p4
    sales := assocSet s.sales saleId { sale with isDistributed := true } }

/-- `recordSaleAndDistribute` (`payable`, **no** role or ownership check):
validates the arguments and the attached payment, records the sale, then
distributes the price along the project's configured split (any excess
payment is refunded to the caller; ETH movements are not modelled). -/
def recordSaleAndDistribute (s : DistState) (caller projectId batchId amount
    price msgValue buyer seller time : Nat) : Option (DistState × Nat) :=
  if projectId = 0 then none
  else if amount = 0 then none
  else if price = 0 then none
  else if buyer = 0 then none
  else if seller = 0 then none
  else if msgValue < price then none
  else
    let saleId := s.saleCounter + 1
    let s1 := { s with
      saleCounter := saleId
      sales := assocSet s.sales saleId
        ⟨projectId, batchId, amount, price, buyer, seller, time, false⟩ }
    (distributePayment s1 saleId projectId price).map (·, saleId)

/-- `withdraw`: fails with `NothingToWithdraw` when the caller's pending
balance is zero, otherwise zeroes it and pays out the full amount (returned). -/
def withdraw (s : DistState) (caller : Nat) : Option (DistState × Nat) :=
  let amount := getBal s.pendingWithdrawals caller
  if amount = 0 then none
  else some ({ s with pendingWithdrawals := setBal s.pendingWithdrawals caller 0 },
    amount)

/-- `creditShares` never reverts when the percentage array is at least as
long as the wallet array (true of every stored configuration). -/
theorem creditShares_total (ws : List Nat) : ∀ (ps : List Nat)
    (pend : List (Nat × Nat)) (t : Nat), ws.length ≤ ps.length →
    ∃ r, creditShares pend ws ps t = some r := by
  induction ws with
  | nil => exact fun ps pend t _ => ⟨pend, rfl⟩
  | cons w ws ih =>
    intro ps pend t h
    cases ps with
    | nil => simp at h
    | cons p ps' =>
      rw [creditShares]
      exact ih ps' _ t (by simpa using h)

/-- Wallet/percentage arrays of a split are aligned (each percentage array
covers its wallet array) — guaranteed by `configurePaymentSplit` and by the
zero-initialised empty split. -/
def splitArraysAligned (sp : PaymentSplit) : Prop :=
  sp.communityWallets.length ≤ sp.communityPercentages.length ∧
  sp.ngoWallets.length ≤ sp.ngoPercentages.length ∧
  sp.verifierWallets.length ≤ sp.verifierPercentages.length

instance (sp : PaymentSplit) : Decidable (splitArraysAligned sp) := by
  unfold splitArraysAligned; infer_instance

/-! ## Claim C3 -/

/-- A fresh distributor: owner 1, treasury 2, default platform fee 250 bp. -/
def distEx0 : DistState := DistState.init 1 2

/-- Result of `configurePaymentSplit(1, [3], [10000], [], [], [], [], 4, 0)`
on `distEx0`: the submitted percentages sum to exactly 10,000 bp, but the
zero platform percentage is silently replaced by the default fee of 250 bp. -/
def distOverSplit : DistState :=
  { distEx0 with splits := [(1, ⟨[3], [10000], [], [], [], [], 4, 250⟩)] }

/-- C3, as stated, is false on the code: a configuration submitting platform
percentage 0 and community percentage 10,000 bp passes the `<= 10000` check
and is accepted, yet the stored configuration carries platform percentage
250 (`defaultPlatformFee`), so its stored percentages sum to 10,250 bp. -/
theorem stored_split_exceeds_bound :
    configurePaymentSplit distEx0 1 1 [3] [10000] [] [] [] [] 4 0 =
      some distOverSplit ∧
    10000 < (getSplit distOverSplit 1).totalPercentage :=
  ⟨by decide, by decide⟩

/-- C3 (amended): `configurePaymentSplit` rejects, with no state change, any
configuration whose submitted percentages sum above 10,000 bp; and whenever a
configuration is accepted with a positive submitted platform percentage, the
stored percentages (stored platform percentage included) sum to at most
10,000 bp. (With a zero submitted platform percentage the stored platform
percentage is replaced by `defaultPlatformFee`, so the stored sum can reach
10,000 bp plus that fee.) -/
theorem configureSplit_bound (s : DistState) (caller projectId : Nat)
    (cw cp nw np vw vp : List Nat) (pw pp : Nat) :
    (10000 < pp + cp.sum + np.sum + vp.sum →
      configurePaymentSplit s caller projectId cw cp nw np vw vp pw pp = none) ∧
    (∀ s', configurePaymentSplit s caller projectId cw cp nw np vw vp pw pp =
        some s' → 0 < pp →
      (getSplit s' projectId).totalPercentage ≤ 10000) := by
  constructor
  · intro h
    simp [configurePaymentSplit, h]
  · intro s' hs hpp
    rw [configurePaymentSplit] at hs
    split at hs
    · simp at hs
    split at hs
    · simp at hs
    split at hs
    · simp at hs
    split at hs
    · simp at hs
    split at hs
    · simp at hs
    split at hs
    · simp at hs
    rename_i hsum
    rw [Nat.not_lt] at hsum
    obtain rfl := Option.some.inj hs
    rw [getSplit]
    simp only [assocFind?_assocSet_self, Option.getD_some, PaymentSplit.totalPercentage]
    exact hsum

/-- Witness for `configureSplit_bound`: an 11,000 bp submission is rejected,
and an accepted 6,000 bp submission with positive platform share stores a
total within the bound. -/
theorem configureSplit_bound_witness :
    configurePaymentSplit distEx0 1 1 [3] [9000] [] [] [] [] 4 2000 = none ∧
    (getSplit { distEx0 with
        splits := [(1, ⟨[3], [5000], [], [], [], [], 4, 1000⟩)] } 1).totalPercentage
      ≤ 10000 :=
  ⟨(configureSplit_bound distEx0 1 1 [3] [9000] [] [] [] [] 4 2000).1 (by decide),
   (configureSplit_bound distEx0 1 1 [3] [5000] [] [] [] [] 4 1000).2
     { distEx0 with splits := [(1, ⟨[3], [5000], [], [], [], [], 4, 1000⟩)] }
     (by decide) (by decide)⟩

/-! ## Claim C6 -/

/-- C6 (confirmed): `recordSaleAndDistribute` on a project with no configured
payout split, with valid arguments and the payment covering the price,
succeeds: it records the sale with `isDistributed = true` while the
`pendingWithdrawals` map is left exactly as it was — every share loop walks
an empty array and the platform amount is `price * 0 / 10000 = 0`. -/
theorem settleSale_unconfigured_split (s : DistState) (caller projectId batchId
    amount price msgValue buyer seller time : Nat)
    (hns : assocFind? s.splits projectId = none)
    (hpid : projectId ≠ 0) (ham : amount ≠ 0) (hpr : price ≠ 0)
    (hb : buyer ≠ 0) (hse : seller ≠ 0) (hv : price ≤ msgValue) :
    recordSaleAndDistribute s caller projectId batchId amount price msgValue
        buyer seller time =
      some ({ s with
        saleCounter := s.saleCounter + 1
        sales := assocSet s.sales (s.saleCounter + 1)
          ⟨projectId, batchId, amount, price, buyer, seller, time, true⟩ },
        s.saleCounter + 1) := by
  have hv' : ¬ msgValue < price := Nat.not_lt.mpr hv
  simp [recordSaleAndDistribute, distributePayment, getSplit, hns, hpid, ham,
    hpr, hb, hse, hv', creditShares, PaymentSplit.empty,
    assocFind?_assocSet_self, assocSet_assocSet]

/-- Witness for `settleSale_unconfigured_split` on a fresh distributor. -/
theorem settleSale_unconfigured_split_witness :
    recordSaleAndDistribute distEx0 7 1 1 5 100 100 8 9 50 =
      some ({ distEx0 with
        saleCounter := 1
        sales := [(1, ⟨1, 1, 5, 100, 8, 9, 50, true⟩)] }, 1) :=
  settleSale_unconfigured_split distEx0 7 1 1 5 100 100 8 9 50 (by decide)
    (by decide) (by decide) (by decide) (by decide) (by decide) (by decide)

/-! ## Claim C9 -/

/-- C9 (confirmed): when an identity's pending balance is positive,
`withdraw` pays out exactly that full amount and zeroes the balance; an
immediately repeated `withdraw`, like any `withdraw` on a zero balance, fails
(`NothingToWithdraw`, modelled as `none`) with no state change. -/
theorem withdraw_all_then_nothing (s : DistState) (a : Nat) :
    (0 < getBal s.pendingWithdrawals a →
      withdraw s a = some
        ({ s with pendingWithdrawals := setBal s.pendingWithdrawals a 0 },
          getBal s.pendingWithdrawals a) ∧
      withdraw { s with pendingWithdrawals := setBal s.pendingWithdrawals a 0 }
        a = none) ∧
    (getBal s.pendingWithdrawals a = 0 → withdraw s a = none) := by
  refine ⟨fun hpos => ⟨?_, ?_⟩, fun hz => ?_⟩
  · rw [withdraw, if_neg (by omega)]
  · rw [withdraw]
    simp [getBal_setBal_self]
  · rw [withdraw, if_pos hz]

/-- Witness for `withdraw_all_then_nothing`: address 5 withdraws its 42
pending units once, then gets `NothingToWithdraw`. -/
theorem withdraw_all_then_nothing_witness :
    withdraw { distEx0 with pendingWithdrawals := [(5, 42)] } 5 =
      some ({ distEx0 with pendingWithdrawals := [(5, 0)] }, 42) ∧
    withdraw { distEx0 with pendingWithdrawals := [(5, 0)] } 5 = none :=
  (withdraw_all_then_nothing { distEx0 with pendingWithdrawals := [(5, 42)] } 5).1
    (by decide)

/-! ## Claim C10 -/

/-- C10 (confirmed): `recordSaleAndDistribute` imposes no authorization
precondition — for every caller identity it succeeds whenever the project id,
amount and price are positive, buyer and seller are nonzero and the attached
payment covers the price (given the array alignment every stored split
satisfies), recording a distributed `SaleRecord` under the fresh sale id; the
caller identity is never consulted. -/
theorem settleSale_no_authorization (s : DistState) (caller projectId batchId
    amount price msgValue buyer seller time : Nat)
    (halign : splitArraysAligned (getSplit s projectId))
    (hpid : 0 < projectId) (ham : 0 < amount) (hpr : 0 < price)
    (hb : buyer ≠ 0) (hse : seller ≠ 0) (hv : price ≤ msgValue) :
    (recordSaleAndDistribute s caller projectId batchId amount price msgValue
        buyer seller time).map
        (fun r => (r.2, assocFind? r.1.sales (s.saleCounter + 1))) =
      some (s.saleCounter + 1,
        some ⟨projectId, batchId, amount, price, buyer, seller, time, true⟩) := by
  have hv' : ¬ msgValue < price := Nat.not_lt.mpr hv
  obtain ⟨ha1, ha2, ha3⟩ := halign
  rw [recordSaleAndDistribute]
  rw [if_neg (by omega), if_neg (by omega), if_neg (by omega), if_neg hb,
    if_neg hse, if_neg hv']
  have hsplit : getSplit { s with
      saleCounter := s.saleCounter + 1
      sales := assocSet s.sales (s.saleCounter + 1)
        ⟨projectId, batchId, amount, price, buyer, seller, time, false⟩ }
      projectId = getSplit s projectId := rfl
  dsimp only
  rw [distributePayment]
  dsimp only
  rw [hsplit]
  obtain ⟨p1, h1⟩ := creditShares_total _ _ s.pendingWithdrawals price ha1
  obtain ⟨p2, h2⟩ := creditShares_total _ _ p1 price ha2
  obtain ⟨p3, h3⟩ := creditShares_total _ _ p2 price ha3
  simp [h1, h2, h3, assocFind?_assocSet_self, assocSet_assocSet]

/-- Witness for `settleSale_no_authorization`: the arbitrary, never
authorized address 99 settles a sale on a fresh distributor. -/
theorem settleSale_no_authorization_witness :
    (recordSaleAndDistribute distEx0 99 1 2 5 100 150 8 9 50).map
        (fun r => (r.2, assocFind? r.1.sales 1)) =
      some (1, some ⟨1, 2, 5, 100, 8, 9, 50, true⟩) :=
  settleSale_no_authorization distEx0 99 1 2 5 100 150 8 9 50 (by decide)
    (by decide) (by decide) (by decide) (by decide) (by decide) (by decide)

/-! ## ProjectRegistry (the slice the oracle calls) -/

/-- The slice of `ProjectRegistry.Project` the oracle reads: the owner the
minted batch goes to and the credit total the oracle writes back. -/
structure Project where
  id : Nat
  projectOwner : Nat
  totalCarbonCredits : Nat
  deriving DecidableEq, Repr

/-- State of `ProjectRegistry`: owner, project counter, the `projects`
mapping (zero-initialised) and the verifier allow-list. -/
structure RegistryState where
  owner : Nat
  projectCount : Nat
  projects : List (Nat × Project)
  authorizedVerifiers : List Nat
  deriving DecidableEq, Repr

/-- `projects[_projectId]` — mapping read with zero default. -/
def getProjectEntry (r : RegistryState) (projectId : Nat) : Project :=
  (assocFind? r.projects projectId).getD ⟨0, 0, 0⟩

/-- `getProject` (`projectExists` guard: `0 < id ≤ counter`). -/
def getProject (r : RegistryState) (projectId : Nat) : Option Project :=
  if 1 ≤ projectId ∧ projectId ≤ r.projectCount then
    some (getProjectEntry r projectId)
  else none

/-- `updateTotalCarbonCredits` (`onlyAuthorizedVerifier`, `projectExists`). -/
def updateTotalCarbonCredits (r : RegistryState) (caller projectId credits : Nat) :
    Option RegistryState :=
  if ¬(caller ∈ r.authorizedVerifiers ∨ caller = r.owner) then none
  else if ¬(1 ≤ projectId ∧ projectId ≤ r.projectCount) then none
  else
    let proj := { getProjectEntry r projectId with totalCarbonCredits := credits }
    some { r with projects := assocSet r.projects projectId proj }

/-! ## VerificationOracle -/

/-- `VerificationOracle.DataSource`. -/
inductive DataSource where
  | community
  | satellite
  | drone
  | thirdParty
  deriving DecidableEq, Repr

/-- `VerificationOracle.VerificationStatus`. -/
inductive VerificationStatus where
  | pending
  | verified
  | rejected
  | requiresReview
  deriving DecidableEq, Repr

/-- `VerificationOracle.VerificationData` (one evidence submission). -/
structure VerificationData where
  projectId : Nat
  source : DataSource
  ipfsHash : String
  description : String
  submitter : Nat
  timestamp : Nat
  status : VerificationStatus
  notes : String
  carbonCreditsEstimate : Nat
  deriving DecidableEq, Repr

/-- The zero-initialised `VerificationData` an unwritten mapping slot reads
(enum values decode to their first constructor). -/
def VerificationData.empty : VerificationData :=
  ⟨0, .community, "", "", 0, 0, .pending, "", 0⟩

/-- `VerificationOracle.ProjectVerification` (per-claim consensus record). -/
structure ProjectVerification where
  projectId : Nat
  verificationIds : List Nat
  communityDataCount : Nat
  satelliteDataCount : Nat
  droneDataCount : Nat
  thirdPartyDataCount : Nat
  verifiedDataCount : Nat
  isCompletelyVerified : Bool
  finalCarbonCredits : Nat
  lastUpdateTimestamp : Nat
  deriving DecidableEq, Repr

/-- Zero-initialised `ProjectVerification`. -/
def ProjectVerification.empty : ProjectVerification :=
  ⟨0, [], 0, 0, 0, 0, 0, false, 0, 0⟩

/-- Per-source-kind count of a `ProjectVerification`. -/
def ProjectVerification.sourceCount (pv : ProjectVerification) :
    DataSource → Nat
  | .community => pv.communityDataCount
  | .satellite => pv.satelliteDataCount
  | .drone => pv.droneDataCount
  | .thirdParty => pv.thirdPartyDataCount

/-- Increment of the matching per-source counter (`submitVerificationData`'s
`if/else if` chain over the four sources). -/
def ProjectVerification.bumpSource (pv : ProjectVerification) :
    DataSource → ProjectVerification
  | .community => { pv with communityDataCount := pv.communityDataCount + 1 }
  | .satellite => { pv with satelliteDataCount := pv.satelliteDataCount + 1 }
  | .drone => { pv with droneDataCount := pv.droneDataCount + 1 }
  | .thirdParty => { pv with thirdPartyDataCount := pv.thirdPartyDataCount + 1 }

/-- A `mapping(DataSource => uint256)` — one value per source kind. -/
structure SourceMap where
  community : Nat
  satellite : Nat
  drone : Nat
  thirdParty : Nat
  deriving DecidableEq, Repr

/-- Read of a `SourceMap`. -/
def SourceMap.get (m : SourceMap) : DataSource → Nat
  | .community => m.community
  | .satellite => m.satellite
  | .drone => m.drone
  | .thirdParty => m.thirdParty

/-- State of `VerificationOracle`: owner, the two mappings keyed by id, the
verifier allow-list, and the per-source minimum-count and weight tables
(constructor defaults: minima 3/2/1/1, weights 3000/3500/2500/1000 bp;
`VERIFICATION_THRESHOLD = 7000` bp is a constant). -/
structure OracleState where
  owner : Nat
  verificationIdCounter : Nat
  verifications : List (Nat × VerificationData)
  projectVerifications : List (Nat × ProjectVerification)
  authorizedVerifiers : List Nat
  minimumDataRequirements : SourceMap
  verificationWeights : SourceMap
  deriving DecidableEq, Repr

/-- `verificationData[id]` — mapping read with zero default. -/
def getVerification (o : OracleState) (verificationId : Nat) : VerificationData :=
  (assocFind? o.verifications verificationId).getD VerificationData.empty

/-- `projectVerifications[pid]` — mapping read with zero default. -/
def getPV (o : OracleState) (projectId : Nat) : ProjectVerification :=
  (assocFind? o.projectVerifications projectId).getD ProjectVerification.empty

/-- The whole system the oracle touches: the oracle itself (its address is
`oracleAddr`, the `msg.sender` of its outbound calls), the registry and the
token. -/
structure SysState where
  oracleAddr : Nat
  oracle : OracleState
  registry : RegistryState
  token : TokenState
  deriving DecidableEq, Repr

/-- `submitVerificationData` (`validProjectId` checks **only** `id > 0` —
the registry is never consulted): stores a new Pending submission and
updates the project's tracking record. Returns the fresh submission id. -/
def submitVerificationData (sys : SysState) (caller projectId : Nat)
    (source : DataSource) (ipfsHash description : String)
    (carbonCreditsEstimate time : Nat) : Option (SysState × Nat) :=
  if projectId = 0 then none
  else if ipfsHash.length = 0 then none
  else if carbonCreditsEstimate = 0 then none
  else
    let o := sys.oracle
    let verificationId := o.verificationIdCounter + 1
    let newData : VerificationData :=
      ⟨projectId, source, ipfsHash, description, caller, time, .pending, "",
        carbonCreditsEstimate⟩
    let pv0 := getPV o projectId
    let pv1 := if pv0.projectId = 0 then { pv0 with projectId := projectId } else pv0
    let pv2 := ProjectVerification.bumpSource
      { pv1 with verificationIds := pv1.verificationIds ++ [verificationId] } source
    let pv3 := { pv2 with lastUpdateTimestamp := time }
    some ({ sys with oracle := { o with
        verificationIdCounter := verificationId
        verifications := assocSet o.verifications verificationId newData
        projectVerifications := assocSet o.projectVerifications projectId pv3 } },
      verificationId)

/-- `hasMinimumData` of `_checkProjectVerificationCompletion`. -/
def hasMinimumData (o : OracleState) (projectId : Nat) : Bool :=
  let pv := getPV o projectId
  o.minimumDataRequirements.community ≤ pv.communityDataCount &&
  o.minimumDataRequirements.satellite ≤ pv.satelliteDataCount &&
  o.minimumDataRequirements.drone ≤ pv.droneDataCount &&
  o.minimumDataRequirements.thirdParty ≤ pv.thirdPartyDataCount

/-- The project's submissions in `verificationIds` order (mapping reads). -/
def projectSubmissions (o : OracleState) (projectId : Nat) :
    List VerificationData :=
  (getPV o projectId).verificationIds.map (getVerification o)

/-- `totalWeight` of `_checkProjectVerificationCompletion`: sum of the weight
of every submission of the project. -/
def totalSubmissionWeight (o : OracleState) (projectId : Nat) : Nat :=
  ((projectSubmissions o projectId).map
    (fun d => o.verificationWeights.get d.source)).sum

/-- `verifiedWeight`: sum of the weights of the Verified submissions only. -/
def acceptedWeight (o : OracleState) (projectId : Nat) : Nat :=
  (((projectSubmissions o projectId).filter
      (fun d => d.status = .verified)).map
    (fun d => o.verificationWeights.get d.source)).sum

/-- `_calculateFinalCarbonCredits`: weight-normalised average of the
estimates over Verified submissions, floor division, 0 when the verified
weight is zero. -/
def calculateFinalCarbonCredits (o : OracleState) (projectId : Nat) : Nat :=
  let subs := (projectSubmissions o projectId).filter
    (fun d => d.status = .verified)
  let totalEstimate := (subs.map
    (fun d => d.carbonCreditsEstimate * o.verificationWeights.get d.source)).sum
  let totalWeight := (subs.map (fun d => o.verificationWeights.get d.source)).sum
  if 0 < totalWeight then totalEstimate / totalWeight else 0

/-- `_checkProjectVerificationCompletion` together with the cross-contract
calls the finalization branch makes (`updateTotalCarbonCredits`, then
`_issueCarbonCredits` = `getProject` + `mintCreditBatch`). A `none` anywhere
reverts the whole `decide` transaction. Division by zero
(`verifiedWeight * 10000 / totalWeight` with `totalWeight = 0`) reverts. -/
def checkProjectVerificationCompletion (sys : SysState) (projectId time : Nat) :
    Option SysState :=
  let o := sys.oracle
  let pv := getPV o projectId
  if hasMinimumData o projectId = false then some sys
  else if totalSubmissionWeight o projectId = 0 then none
  else
    let verificationScore :=
      acceptedWeight o projectId * 10000 / totalSubmissionWeight o projectId
    if 7000 ≤ verificationScore ∧ pv.isCompletelyVerified = false then
      let finalCredits := calculateFinalCarbonCredits o projectId
      let pv' := { pv with isCompletelyVerified := true,
                           finalCarbonCredits := finalCredits }
      let o' := { o with projectVerifications := assocSet o.projectVerifications projectId pv' }
      match updateTotalCarbonCredits sys.registry sys.oracleAddr projectId
          finalCredits with
      | none => none
      | some reg' =>
        match getProject reg' projectId with
        | none => none
        | some proj =>
          match mintCreditBatch sys.token sys.oracleAddr projectId finalCredits
              time "Blue Carbon MRV Standard" "" proj.projectOwner time with
          | none => none
          | some (tok', _) =>
            some { sys with oracle := o', registry := reg', token := tok' }
    else some sys

/-- `verifiedDataCount` adjustment of `updateVerificationStatus`. -/
def adjustedCount (oldStatus newStatus : VerificationStatus) (c : Nat) : Nat :=
  if oldStatus ≠ .verified ∧ newStatus = .verified then c + 1
  else if oldStatus = .verified ∧ newStatus ≠ .verified then c - 1
  else c

/-- The state-update phase of `updateVerificationStatus`: overwrite the
submission's status and notes and adjust the project's tracking record. -/
def applyStatusUpdate (sys : SysState) (verificationId : Nat)
    (newStatus : VerificationStatus) (notes : String) (time : Nat) : SysState :=
  let o := sys.oracle
  let data := getVerification o verificationId
  let data' := { data with status := newStatus, notes := notes }
  let pv := getPV o data.projectId
  let pv' := { pv with
    verifiedDataCount := adjustedCount data.status newStatus pv.verifiedDataCount,
    lastUpdateTimestamp := time }
  { sys with oracle := { o with
      verifications := assocSet o.verifications verificationId data'
      projectVerifications := assocSet o.projectVerifications data.projectId pv' } }

/-- `updateVerificationStatus` (`onlyAuthorizedVerifier`): overwrites the
submission's status and notes, adjusts the project's `verifiedDataCount`
(a decrement of 0 underflows and reverts), then runs the completion check. -/
def updateVerificationStatus (sys : SysState) (caller verificationId : Nat)
    (newStatus : VerificationStatus) (notes : String) (time : Nat) :
    Option SysState :=
  if ¬(caller ∈ sys.oracle.authorizedVerifiers ∨ caller = sys.oracle.owner) then
    none
  else if ¬(1 ≤ verificationId ∧
      verificationId ≤ sys.oracle.verificationIdCounter) then none
  else
    let data := getVerification sys.oracle verificationId
    if data.status = .verified ∧ newStatus ≠ .verified ∧
        (getPV sys.oracle data.projectId).verifiedDataCount = 0 then none
    else
      checkProjectVerificationCompletion
        (applyStatusUpdate sys verificationId newStatus notes time)
        data.projectId time

theorem assocFind?_assocSet_ne {α : Type} (l : List (Nat × α)) (k k' : Nat)
    (v : α) (h : k' ≠ k) : assocFind? (assocSet l k v) k' = assocFind? l k' := by
  induction l with
  | nil => simp [assocSet, assocFind?, h]
  | cons hd t ih =>
    obtain ⟨a, w⟩ := hd
    by_cases hk : k = a
    · subst hk
      simp [assocSet, assocFind?, h]
    · by_cases hk' : k' = a
      · simp [assocSet, assocFind?, hk, hk']
      · simp [assocSet, assocFind?, hk, hk', ih]

theorem getVerification_applyStatusUpdate (sys : SysState) (vid : Nat)
    (st : VerificationStatus) (notes : String) (time id : Nat) :
    getVerification (applyStatusUpdate sys vid st notes time).oracle id =
      if id = vid then
        { getVerification sys.oracle vid with status := st, notes := notes }
      else getVerification sys.oracle id := by
  by_cases h : id = vid
  · simp [applyStatusUpdate, getVerification, h, assocFind?_assocSet_self]
  · simp [applyStatusUpdate, getVerification, h, assocFind?_assocSet_ne _ _ _ _ h]

theorem getPV_applyStatusUpdate_self (sys : SysState) (vid : Nat)
    (st : VerificationStatus) (notes : String) (time pid : Nat)
    (hpid : (getVerification sys.oracle vid).projectId = pid) :
    getPV (applyStatusUpdate sys vid st notes time).oracle pid =
      { getPV sys.oracle pid with
        verifiedDataCount := adjustedCount (getVerification sys.oracle vid).status
          st (getPV sys.oracle pid).verifiedDataCount,
        lastUpdateTimestamp := time } := by
  subst hpid
  simp [applyStatusUpdate, getPV, assocFind?_assocSet_self]

theorem hasMinimumData_applyStatusUpdate (sys : SysState) (vid : Nat)
    (st : VerificationStatus) (notes : String) (time pid : Nat)
    (hpid : (getVerification sys.oracle vid).projectId = pid) :
    hasMinimumData (applyStatusUpdate sys vid st notes time).oracle pid =
      hasMinimumData sys.oracle pid := by
  rw [hasMinimumData, hasMinimumData,
    getPV_applyStatusUpdate_self sys vid st notes time pid hpid]
  simp [applyStatusUpdate]

theorem totalSubmissionWeight_applyStatusUpdate (sys : SysState) (vid : Nat)
    (st : VerificationStatus) (notes : String) (time pid : Nat)
    (hpid : (getVerification sys.oracle vid).projectId = pid) :
    totalSubmissionWeight (applyStatusUpdate sys vid st notes time).oracle pid =
      totalSubmissionWeight sys.oracle pid := by
  rw [totalSubmissionWeight, totalSubmissionWeight, projectSubmissions,
    projectSubmissions, getPV_applyStatusUpdate_self sys vid st notes time pid hpid]
  simp only [List.map_map]
  congr 1
  apply List.map_congr_left
  intro id _
  simp only [Function.comp_apply, getVerification_applyStatusUpdate]
  by_cases h : id = vid <;> simp [h, applyStatusUpdate]

theorem mintCreditBatch_shape {s : TokenState} {c p a v : Nat} {std md : String}
    {r t : Nat} {s' : TokenState} {bid : Nat}
    (h : mintCreditBatch s c p a v std md r t = some (s', bid)) :
    s'.batchCounter = s.batchCounter + 1 ∧
    s'.batches = s.batches ++ [⟨p, a, v, std, md, false, t, r⟩] := by
  rw [mintCreditBatch] at h
  split at h
  · simp at h
  split at h
  · simp at h
  split at h
  · simp at h
  split at h
  · simp at h
  split at h
  · simp at h
  split at h
  · simp at h
  rw [Option.some.injEq, Prod.mk.injEq] at h
  obtain ⟨rfl, -⟩ := h
  exact ⟨rfl, rfl⟩

theorem updateTotal_getProject {r : RegistryState} {c pid credits : Nat}
    {r' : RegistryState}
    (h : updateTotalCarbonCredits r c pid credits = some r') :
    getProject r' pid =
      some { getProjectEntry r pid with totalCarbonCredits := credits } := by
  rw [updateTotalCarbonCredits] at h
  split at h
  · simp at h
  split at h
  · simp at h
  rename_i hrange
  rw [not_not] at hrange
  obtain rfl := Option.some.inj h
  rw [getProject]
  rw [if_pos hrange]
  simp [getProjectEntry, assocFind?_assocSet_self]

theorem checkCompletion_of_finalized (sys : SysState) (pid time : Nat)
    (hflag : (getPV sys.oracle pid).isCompletelyVerified = true)
    {sys' : SysState}
    (h : checkProjectVerificationCompletion sys pid time = some sys') :
    sys' = sys := by
  rw [checkProjectVerificationCompletion] at h
  split at h
  · exact (Option.some.inj h).symm
  split at h
  · simp at h
  dsimp only at h
  split at h
  · rename_i hcond
    rw [hflag] at hcond
    exact absurd hcond.2 (by simp)
  · exact (Option.some.inj h).symm

/-- Estimate/weight pairs of the Accepted (Verified) submissions of a claim. -/
def acceptedEstimatesWeights (o : OracleState) (pid : Nat) : List (Nat × Nat) :=
  ((projectSubmissions o pid).filter (fun d => d.status = .verified)).map
    (fun d => (d.carbonCreditsEstimate, o.verificationWeights.get d.source))

/-- The spec's issued-quantity formula, stated on (claimedQuantity, weight)
pairs: `Σ(claimedQuantity_i × weight_i) / Σ(weight_i)` with floor division. -/
def specWeightedAverage (l : List (Nat × Nat)) : Nat :=
  (l.map (fun p => p.1 * p.2)).sum / (l.map (fun p => p.2)).sum

theorem calc_eq_specWeightedAverage (o : OracleState) (pid : Nat) :
    calculateFinalCarbonCredits o pid =
      specWeightedAverage (acceptedEstimatesWeights o pid) := by
  rw [calculateFinalCarbonCredits, specWeightedAverage, acceptedEstimatesWeights]
  have h1 : (((projectSubmissions o pid).filter (fun d => d.status = .verified)).map
        (fun d => (d.carbonCreditsEstimate, o.verificationWeights.get d.source))).map
        (fun p => p.1 * p.2) =
      ((projectSubmissions o pid).filter (fun d => d.status = .verified)).map
        (fun d => d.carbonCreditsEstimate * o.verificationWeights.get d.source) := by
    simp [List.map_map, Function.comp]
  have h2 : (((projectSubmissions o pid).filter (fun d => d.status = .verified)).map
        (fun d => (d.carbonCreditsEstimate, o.verificationWeights.get d.source))).map
        (fun p => p.2) =
      ((projectSubmissions o pid).filter (fun d => d.status = .verified)).map
        (fun d => o.verificationWeights.get d.source) := by
    simp [List.map_map, Function.comp]
  rw [h1, h2]
  split
  · rfl
  · rename_i h
    rw [Nat.not_lt, Nat.le_zero] at h
    rw [h, Nat.div_zero]

theorem acceptedEW_setPV (o : OracleState) (pid : Nat)
    (pv : ProjectVerification)
    (hids : pv.verificationIds = (getPV o pid).verificationIds) :
    acceptedEstimatesWeights
      { o with projectVerifications := assocSet o.projectVerifications pid pv }
      pid = acceptedEstimatesWeights o pid := by
  rw [acceptedEstimatesWeights, acceptedEstimatesWeights, projectSubmissions,
    projectSubmissions]
  simp only [getPV, assocFind?_assocSet_self, Option.getD_some]
  rw [hids]
  rfl

/-! ## Claim C4 -/

/-- C4 (confirmed): once a claim's consensus is finalized
(`isCompletelyVerified = true`), any further successful `decide`
(`updateVerificationStatus`) on a submission of that claim leaves the flag
true, leaves `finalCarbonCredits` untouched, and triggers no further batch
issuance (the token state is completely unchanged) — the flag can therefore
flip false→true at most once. -/
theorem finalized_is_immutable (sys : SysState) (caller vid pid : Nat)
    (st : VerificationStatus) (notes : String) (time : Nat) {sys' : SysState}
    (hpid : (getVerification sys.oracle vid).projectId = pid)
    (hflag : (getPV sys.oracle pid).isCompletelyVerified = true)
    (hstep : updateVerificationStatus sys caller vid st notes time = some sys') :
    (getPV sys'.oracle pid).isCompletelyVerified = true ∧
    (getPV sys'.oracle pid).finalCarbonCredits =
      (getPV sys.oracle pid).finalCarbonCredits ∧
    sys'.token = sys.token := by
  rw [updateVerificationStatus] at hstep
  split at hstep
  · simp at hstep
  split at hstep
  · simp at hstep
  dsimp only at hstep
  split at hstep
  · simp at hstep
  rw [hpid] at hstep
  have hflag1 : (getPV (applyStatusUpdate sys vid st notes time).oracle
      pid).isCompletelyVerified = true := by
    rw [getPV_applyStatusUpdate_self sys vid st notes time pid hpid]
    exact hflag
  obtain rfl := checkCompletion_of_finalized _ pid time hflag1 hstep
  refine ⟨hflag1, ?_, rfl⟩
  rw [getPV_applyStatusUpdate_self sys vid st notes time pid hpid]

/-- The state after an authorized verifier re-decides submission 1 of the
already finalized claim 1 of `sysC4`. -/
def sysC4 : SysState :=
  ⟨3,
   ⟨1, 1, [(1, ⟨1, .community, "Qm", "", 5, 10, .pending, "", 5⟩)],
    [(1, ⟨1, [1], 1, 0, 0, 0, 0, true, 42, 10⟩)], [2],
    ⟨3, 2, 1, 1⟩, ⟨3000, 3500, 2500, 1000⟩⟩,
   ⟨1, 1, [(1, ⟨1, 7, 42⟩)], [3]⟩,
   TokenState.init 3⟩

/-- `sysC4` after `updateVerificationStatus(1, Verified, "")` by verifier 2. -/
def sysC4' : SysState := applyStatusUpdate sysC4 1 .verified "" 200

/-- Witness for `finalized_is_immutable` on the finalized claim of `sysC4`. -/
theorem finalized_is_immutable_witness :
    (getPV sysC4'.oracle 1).isCompletelyVerified = true ∧
    (getPV sysC4'.oracle 1).finalCarbonCredits =
      (getPV sysC4.oracle 1).finalCarbonCredits ∧
    sysC4'.token = sysC4.token :=
  @finalized_is_immutable sysC4 2 1 1 .verified "" 200 sysC4'
    (by decide) (by decide) (by decide)

/-! ## Claim C7 -/

/-- C7 (amended): when the minimum per-source coverage is met but the total
weight over the claim's submissions is zero (so the accepted weight is zero
and the threshold comparison `0 ≥ 0.7 × 0` holds trivially), a `decide` on
any submission of the claim does not defer finalization — the whole call
reverts on the division by zero in the score computation: the claim stays
unfinalized and no zero-quantity batch is issued, but the decide's own
status update is rolled back too, not preserved. -/
theorem zero_weight_decide_reverts (sys : SysState) (caller vid pid : Nat)
    (st : VerificationStatus) (notes : String) (time : Nat)
    (hpid : (getVerification sys.oracle vid).projectId = pid)
    (hmin : hasMinimumData sys.oracle pid = true)
    (hw : totalSubmissionWeight sys.oracle pid = 0) :
    updateVerificationStatus sys caller vid st notes time = none := by
  rw [updateVerificationStatus]
  split
  · rfl
  split
  · rfl
  dsimp only
  split
  · rfl
  rw [hpid]
  rw [checkProjectVerificationCompletion]
  rw [hasMinimumData_applyStatusUpdate sys vid st notes time pid hpid, hmin]
  rw [totalSubmissionWeight_applyStatusUpdate sys vid st notes time pid hpid, hw]
  simp

/-- A system whose claim 1 has one Pending community submission while every
per-source minimum is 0 and every source weight is 0 (both owner-settable). -/
def sysC7 : SysState :=
  ⟨3,
   ⟨1, 1, [(1, ⟨1, .community, "Qm", "", 5, 10, .pending, "", 5⟩)],
    [(1, ⟨1, [1], 1, 0, 0, 0, 0, false, 0, 10⟩)], [],
    ⟨0, 0, 0, 0⟩, ⟨0, 0, 0, 0⟩⟩,
   ⟨1, 1, [(1, ⟨1, 7, 0⟩)], [3]⟩,
   TokenState.init 3⟩

/-- C7, as stated, is false on the code: in `sysC7` the minimum-coverage
condition is met and the total (hence accepted) weight over claim 1's
submissions is zero, so the spec's threshold inequality
`acceptedWeight × 10000 ≥ 7000 × totalWeight` holds trivially — yet the
owner's `decide` on submission 1 reverts outright (division by zero), so its
own status update is **not** preserved: there is no post-state at all. -/
theorem zero_weight_decide_not_preserved :
    hasMinimumData sysC7.oracle 1 = true ∧
    acceptedWeight sysC7.oracle 1 = 0 ∧
    totalSubmissionWeight sysC7.oracle 1 = 0 ∧
    updateVerificationStatus sysC7 1 1 .verified "" 200 = none :=
  ⟨by decide, by decide, by decide, by decide⟩

/-- Witness for `zero_weight_decide_reverts` at `sysC7`. -/
theorem zero_weight_decide_reverts_witness :
    updateVerificationStatus sysC7 1 1 .rejected "n" 300 = none :=
  zero_weight_decide_reverts sysC7 1 1 1 .rejected "n" 300
    (by decide) (by decide) (by decide)

/-! ## Claim C5 -/

/-- C5 (confirmed): when a successful `decide` flips a claim's finalization
flag from false to true, the stored `finalCarbonCredits` equals the spec's
weight-normalised average `Σ(claimedQuantity×weight)/Σ(weight)` (floor
division) over the Accepted (Verified) submissions of the post-decide state,
and exactly one new credit batch is minted, carrying exactly that quantity,
for the claim's registered project owner. (`hlen` is the bookkeeping
invariant of the token's batch store, true of every reachable token state.) -/
theorem finalization_weighted_average (sys : SysState) (caller vid pid : Nat)
    (st : VerificationStatus) (notes : String) (time : Nat) {sys' : SysState}
    (hpid : (getVerification sys.oracle vid).projectId = pid)
    (hlen : sys.token.batches.length = sys.token.batchCounter)
    (hbefore : (getPV sys.oracle pid).isCompletelyVerified = false)
    (hstep : updateVerificationStatus sys caller vid st notes time = some sys')
    (hafter : (getPV sys'.oracle pid).isCompletelyVerified = true) :
    (getPV sys'.oracle pid).finalCarbonCredits =
      specWeightedAverage (acceptedEstimatesWeights sys'.oracle pid) ∧
    sys'.token.batchCounter = sys.token.batchCounter + 1 ∧
    sys'.token.batches.get? sys.token.batchCounter =
      some ⟨pid, (getPV sys'.oracle pid).finalCarbonCredits, time,
        "Blue Carbon MRV Standard", "", false, time,
        (getProjectEntry sys.registry pid).projectOwner⟩ := by
  rw [updateVerificationStatus] at hstep
  split at hstep
  · simp at hstep
  split at hstep
  · simp at hstep
  dsimp only at hstep
  split at hstep
  · simp at hstep
  rw [hpid] at hstep
  have hA : (getPV (applyStatusUpdate sys vid st notes time).oracle
      pid).isCompletelyVerified = false := by
    rw [getPV_applyStatusUpdate_self sys vid st notes time pid hpid]
    exact hbefore
  rw [checkProjectVerificationCompletion] at hstep
  split at hstep
  · obtain rfl := Option.some.inj hstep
    rw [hA] at hafter
    simp at hafter
  split at hstep
  · simp at hstep
  dsimp only at hstep
  split at hstep
  · -- the finalization branch fired
    split at hstep
    · simp at hstep
    rename_i reg' hreg
    split at hstep
    · simp at hstep
    rename_i proj hproj
    split at hstep
    · simp at hstep
    rename_i tok' bid hmint
    obtain rfl := Option.some.inj hstep
    have hpv' : getPV { (applyStatusUpdate sys vid st notes time).oracle with
        projectVerifications := assocSet
          (applyStatusUpdate sys vid st notes time).oracle.projectVerifications
          pid
          { getPV (applyStatusUpdate sys vid st notes time).oracle pid with
            isCompletelyVerified := true,
            finalCarbonCredits := calculateFinalCarbonCredits
              (applyStatusUpdate sys vid st notes time).oracle pid } } pid =
        { getPV (applyStatusUpdate sys vid st notes time).oracle pid with
          isCompletelyVerified := true,
          finalCarbonCredits := calculateFinalCarbonCredits
            (applyStatusUpdate sys vid st notes time).oracle pid } := by
      rw [getPV]
      simp [assocFind?_assocSet_self]
    obtain ⟨hcount, hbatches⟩ := mintCreditBatch_shape hmint
    have hproj' := updateTotal_getProject hreg
    rw [hproj] at hproj'
    obtain rfl := Option.some.inj hproj'
    refine ⟨?_, ?_, ?_⟩
    · dsimp only
      rw [hpv']
      dsimp only
      rw [calc_eq_specWeightedAverage]
      congr 1
      symm
      apply acceptedEW_setPV
      rfl
    · exact hcount
    · dsimp only
      rw [hpv']
      dsimp only
      have htok : (applyStatusUpdate sys vid st notes time).token = sys.token := rfl
      rw [htok] at hbatches
      rw [hbatches, ← hlen, List.get?_append_right (Nat.le_refl _), Nat.sub_self]
      rfl
  · obtain rfl := Option.some.inj hstep
    rw [hA] at hafter
    simp at hafter

/-- A system whose claim 1 needs one submission (all minima zero), with one
Pending community submission of estimate 10, default weights, the oracle
authorized in the registry and owning the token. -/
def sysC5 : SysState :=
  ⟨3,
   ⟨1, 1, [(1, ⟨1, .community, "Qm", "", 5, 10, .pending, "", 10⟩)],
    [(1, ⟨1, [1], 1, 0, 0, 0, 0, false, 0, 10⟩)], [],
    ⟨0, 0, 0, 0⟩, ⟨3000, 3500, 2500, 1000⟩⟩,
   ⟨1, 1, [(1, ⟨1, 7, 0⟩)], [3]⟩,
   TokenState.init 3⟩

/-- `sysC5` after the owner's `decide(1, Verified, "")` finalizes claim 1:
issued quantity `10 × 3000 / 3000 = 10`, one batch minted to owner 7. -/
def sysC5' : SysState :=
  ⟨3,
   ⟨1, 1, [(1, ⟨1, .community, "Qm", "", 5, 10, .verified, "", 10⟩)],
    [(1, ⟨1, [1], 1, 0, 0, 0, 1, true, 10, 200⟩)], [],
    ⟨0, 0, 0, 0⟩, ⟨3000, 3500, 2500, 1000⟩⟩,
   ⟨1, 1, [(1, ⟨1, 7, 10⟩)], [3]⟩,
   ⟨3, 1, [(7, 10 * tokenUnit)],
    [⟨1, 10, 200, "Blue Carbon MRV Standard", "", false, 200, 7⟩], [[]], [],
    10, 0⟩⟩

/-- Witness for `finalization_weighted_average`: the concrete finalization
of `sysC5`. -/
theorem finalization_weighted_average_witness :
    (getPV sysC5'.oracle 1).finalCarbonCredits =
      specWeightedAverage (acceptedEstimatesWeights sysC5'.oracle 1) ∧
    sysC5'.token.batchCounter = sysC5.token.batchCounter + 1 ∧
    sysC5'.token.batches.get? sysC5.token.batchCounter =
      some ⟨1, (getPV sysC5'.oracle 1).finalCarbonCredits, 200,
        "Blue Carbon MRV Standard", "", false, 200,
        (getProjectEntry sysC5.registry 1).projectOwner⟩ :=
  @finalization_weighted_average sysC5 1 1 1 .verified "" 200 sysC5'
    (by decide) (by decide) (by decide) (by decide) (by decide)

/-! ## Claim C8 -/

/-- A fresh oracle/registry/token system: no project registered at all. -/
def sysC8 : SysState :=
  ⟨3,
   ⟨1, 0, [], [], [], ⟨3, 2, 1, 1⟩, ⟨3000, 3500, 2500, 1000⟩⟩,
   ⟨1, 0, [], []⟩,
   TokenState.init 3⟩

/-- C8, as stated, is false on the code: `submitVerificationData`'s
`validProjectId` modifier checks only `projectId > 0` and the claim registry
is never consulted, so a submit against claim 1 in a system whose registry
holds **zero** projects succeeds, creating a Pending submission and bumping
the community counter instead of failing with NotFound. -/
theorem submit_unknown_claim_accepted :
    sysC8.registry.projectCount = 0 ∧
    (submitVerificationData sysC8 5 1 .community "Qm" "d" 10 100).map
      (fun r => (r.2, (getVerification r.1.oracle 1).projectId,
        (getVerification r.1.oracle 1).status,
        (getPV r.1.oracle 1).communityDataCount)) =
      some (1, 1, .pending, 1) :=
  ⟨rfl, by decide⟩

/-- C8 (amended): `submit` fails only on a zero claim id, an empty content
reference, or a zero claimed quantity; for **every** positive claim id —
registered or not — it succeeds, storing a Pending submission with the given
fields under the fresh id and incrementing the claim's counter for the
submission's source kind. -/
theorem submit_checks_only_arguments (sys : SysState) (caller projectId : Nat)
    (source : DataSource) (ipfsHash description : String) (est time : Nat) :
    (projectId = 0 ∨ ipfsHash.length = 0 ∨ est = 0 →
      submitVerificationData sys caller projectId source ipfsHash description
        est time = none) ∧
    (projectId ≠ 0 → ipfsHash.length ≠ 0 → est ≠ 0 →
      (submitVerificationData sys caller projectId source ipfsHash description
          est time).map
        (fun r => (r.2, getVerification r.1.oracle r.2,
          (getPV r.1.oracle projectId).sourceCount source)) =
      some (sys.oracle.verificationIdCounter + 1,
        ⟨projectId, source, ipfsHash, description, caller, time, .pending, "",
          est⟩,
        (getPV sys.oracle projectId).sourceCount source + 1)) := by
  constructor
  · intro h
    rcases h with h | h | h <;> simp [submitVerificationData, h]
  · intro h1 h2 h3
    rw [submitVerificationData, if_neg h1, if_neg h2, if_neg h3]
    dsimp only
    simp only [Option.map_some']
    have hfind : assocFind? (assocSet sys.oracle.verifications
        (sys.oracle.verificationIdCounter + 1)
        ⟨projectId, source, ipfsHash, description, caller, time, .pending, "",
          est⟩) (sys.oracle.verificationIdCounter + 1) =
        some ⟨projectId, source, ipfsHash, description, caller, time, .pending,
          "", est⟩ := assocFind?_assocSet_self _ _ _
    simp only [getVerification, getPV, hfind, assocFind?_assocSet_self,
      Option.getD_some]
    refine congrArg some ?_
    refine congrArg _ ?_
    by_cases hz : ((assocFind? sys.oracle.projectVerifications
        projectId).getD ProjectVerification.empty).projectId = 0 <;>
      cases source <;>
      simp [ProjectVerification.sourceCount, ProjectVerification.bumpSource, hz]

/-- Witness for `submit_checks_only_arguments`: a zero claim id is rejected;
claim id 1 (nonexistent in `sysC8`'s empty registry) is accepted. -/
theorem submit_checks_only_arguments_witness :
    submitVerificationData sysC8 5 0 .community "Qm" "d" 10 100 = none ∧
    (submitVerificationData sysC8 5 1 .community "Qm" "d" 10 100).map
      (fun r => (r.2, getVerification r.1.oracle r.2,
        (getPV r.1.oracle 1).sourceCount .community)) =
      some (1, ⟨1, .community, "Qm", "d", 5, 100, .pending, "", 10⟩,
        (getPV sysC8.oracle 1).sourceCount .community + 1) :=
  ⟨(submit_checks_only_arguments sysC8 5 0 .community "Qm" "d" 10 100).1
      (Or.inl rfl),
   (submit_checks_only_arguments sysC8 5 1 .community "Qm" "d" 10 100).2
      (by decide) (by decide) (by decide)⟩
